import Mathlib

/-!
Verification of the VDDB storage/query core.

The development shallowly embeds the repository's value codec (`src/types.rs`)
and query executors (`src/query/planner.rs`).  Rust machine integers are
modelled as `Int`/`Nat` with explicit `% 2^w` where wrap-around matters.
An `f32` appears in two roles and is modelled accordingly:

* in the codec, serialization transports the raw bit pattern of the float
  (`to_le_bytes`/`from_le_bytes`), so `Codec.Value.Float32` carries the
  32-bit pattern as a `Nat` (this covers NaN payloads bit-exactly);
* in the query engine, floats are added, divided and compared by numeric
  value, so `Engine.Value.Float32` carries a rational.  `f32` addition,
  int-to-float casts and division are modelled as exact rational
  arithmetic; this is exact for every computation verified below
  (small integers, sums below 2^24, divisions with exactly representable
  quotients).

Modules of the repository that the planner calls but whose sources are not
present (`crate::query`'s `Condition`/evaluator, `crate::schema`,
`StorageManager::read_column`) are modelled from the specification; each
such definition carries a doc comment starting with `Modelled from the
spec:`.

The executors additionally return the list of `(table, column)` storage
reads they perform, in order; the Rust code does these reads through
`StorageManager::read_column`, and the log makes "fails before any storage
read" statements expressible in the pure model.
-/

namespace VDDB

/-- Error taxonomy of `src/types.rs` (`DbError`), restricted to the variants
the modelled core can actually produce; the source lists dozens of further
variants that no modelled code path constructs. -/
inductive DbError where
  | IoError (msg : String)
  | SerializationError (msg : String)
  | TypeMismatch
  | InvalidData (msg : String)
  | QueryError (msg : String)
deriving DecidableEq

/-- `DataType` of `src/types.rs`: the closed storage-level type enum. -/
inductive DataType where
  | Int32
  | Float32
  | String
deriving DecidableEq

/-- The `{:?}` debug rendering of a `DataType`, used in error messages. -/
def dataTypeName : DataType → String
  | .Int32 => "Int32"
  | .Float32 => "Float32"
  | .String => "String"

/-- Recognizer for the `InvalidData` error class. -/
def DbError.isInvalidData : DbError → Bool
  | .InvalidData _ => true
  | _ => false

namespace Codec

/-- `Value` of `src/types.rs`, viewed at the byte level for the codec:
`Int32` carries the signed integer, `Float32` carries the raw 32-bit
pattern of the float, `String` carries its UTF-8 byte sequence (a Rust
`String` is exactly a byte vector with the valid-UTF-8 invariant). -/
inductive Value where
  | Int32 (i : Int)
  | Float32 (bits : Nat)
  | String (bytes : List Nat)
deriving DecidableEq

/-- `Value::data_type` of `src/types.rs`. -/
def Value.dataType : Value → DataType
  | .Int32 _ => .Int32
  | .Float32 _ => .Float32
  | .String _ => .String

/-- Little-endian byte decomposition of the low 32 bits of `n`
(`u32::to_le_bytes`, with the truncating `as u32` cast built in). -/
def toLeBytes4 (n : Nat) : List Nat :=
  [n % 256, n / 256 % 256, n / 65536 % 256, n / 16777216 % 256]

/-- `u32::from_le_bytes` applied to the first four entries of the list. -/
def u32FromLe (bs : List Nat) : Nat :=
  bs.getD 0 0 + 256 * bs.getD 1 0 + 65536 * bs.getD 2 0 + 16777216 * bs.getD 3 0

/-- `i32::from_le_bytes` applied to the first four entries of the list:
the unsigned value reinterpreted in two's complement. -/
def i32FromLe (bs : List Nat) : Int :=
  if u32FromLe bs < 2147483648 then (u32FromLe bs : Int)
  else (u32FromLe bs : Int) - 4294967296

/-- One step of the UTF-8 acceptance automaton used by Rust's
`String::from_utf8` validation.  The state `(need, lo, hi)` records how
many continuation bytes are still expected and the admissible half-open
range `[lo, hi)` for the next one.  From the initial state a lead byte
fixes the sequence length and the (overlong/surrogate/out-of-range
excluding) range of its first continuation byte: `C2..DF` start 2-byte
sequences, `E0`/`ED`/other `E2..EF` start 3-byte ones with first
continuation in `[A0,C0)`/`[80,A0)`/`[80,C0)`, `F0`/`F4`/`F1..F3` start
4-byte ones with first continuation in `[90,C0)`/`[80,90)`/`[80,C0)`;
`80..C1` and `F5..` (and anything that is not a byte) are rejected. -/
def utf8Next (st : Nat × Nat × Nat) (b : Nat) : Option (Nat × Nat × Nat) :=
  match st with
  | (0, _, _) =>
    if b < 128 then some (0, 0, 0)
    else if b < 194 then none
    else if b < 224 then some (1, 128, 192)
    else if b = 224 then some (2, 160, 192)
    else if b = 237 then some (2, 128, 160)
    else if b < 240 then some (2, 128, 192)
    else if b = 240 then some (3, 144, 192)
    else if b = 244 then some (3, 128, 144)
    else if b < 245 then some (3, 128, 192)
    else none
  | (n + 1, lo, hi) => if lo ≤ b && b < hi then some (n, 128, 192) else none

/-- Run the UTF-8 automaton from `st`; the input is valid when no byte is
rejected and no sequence is left unfinished. -/
def validUTF8From (st : Nat × Nat × Nat) : List Nat → Bool
  | [] => st.1 == 0
  | b :: rest =>
    match utf8Next st b with
    | none => false
    | some st2 => validUTF8From st2 rest

/-- Strict UTF-8 validity of a byte sequence, as Rust's
`String::from_utf8` checks it (rejecting overlong forms, surrogates and
code points above `0x10FFFF`). -/
def validUTF8 (l : List Nat) : Bool := validUTF8From (0, 0, 0) l

/-- `Value::serialize` of `src/types.rs`: `Int32`/`Float32` become their
four little-endian bytes; `String` becomes a 4-byte little-endian length
prefix (`len as u32`, hence truncated modulo `2^32`) followed by the UTF-8
bytes. -/
def serialize : Value → List Nat
  | .Int32 i => toLeBytes4 (i % 4294967296).toNat
  | .Float32 bits => toLeBytes4 bits
  | .String bytes => toLeBytes4 bytes.length ++ bytes

/-- `Value::deserialize` of `src/types.rs`. -/
def deserialize (dt : DataType) (bytes : List Nat) : Except DbError Value :=
  match dt with
  | .Int32 =>
    if 4 ≤ bytes.length then .ok (.Int32 (i32FromLe bytes))
    else .error (.SerializationError "Insufficient bytes for Int32")
  | .Float32 =>
    if 4 ≤ bytes.length then .ok (.Float32 (u32FromLe bytes))
    else .error (.SerializationError "Insufficient bytes for Float32")
  | .String =>
    if 4 ≤ bytes.length then
      if 4 + u32FromLe bytes ≤ bytes.length then
        if validUTF8 ((bytes.drop 4).take (u32FromLe bytes)) then
          .ok (.String ((bytes.drop 4).take (u32FromLe bytes)))
        else .error (.SerializationError "invalid utf-8 sequence")
      else .error (.SerializationError "Insufficient bytes for String")
    else .error (.SerializationError "Insufficient bytes for String length")

/-- `Value::serialized_size` of `src/types.rs`. -/
def serializedSize : Value → Nat
  | .Int32 _ => 4
  | .Float32 _ => 4
  | .String bytes => 4 + bytes.length

/-- A `Value` that the Rust program can hold: an `i32` in range, an `f32`
bit pattern, or a `String` whose bytes satisfy the UTF-8 invariant. -/
def Representable : Value → Prop
  | .Int32 i => -2147483648 ≤ i ∧ i < 2147483648
  | .Float32 bits => bits < 4294967296
  | .String bytes => validUTF8 bytes = true

end Codec

namespace Engine

/-- An exact rational: the query-engine model of an `f32` numeric value.
The arithmetic below normalizes through `Nat.gcd`, so values built by the
model's operations are in lowest terms and structural equality coincides
with numeric equality on them. -/
structure Frac where
  num : Int
  den : Nat
deriving DecidableEq

/-- Build the normalized fraction `n / d`. -/
def Frac.norm (n : Int) (d : Nat) : Frac :=
  let g := Nat.gcd n.natAbs d
  if g = 0 then ⟨0, 1⟩ else ⟨n / (g : Int), d / g⟩

/-- Embed an integer (the `as f32` cast, exact for every value the claims
touch). -/
def Frac.ofInt (i : Int) : Frac := ⟨i, 1⟩

/-- Exact rational addition (the model of `f32` addition). -/
def Frac.add (a b : Frac) : Frac :=
  Frac.norm (a.num * b.den + b.num * a.den) (a.den * b.den)

/-- Exact rational division (the model of `f32` division); division by
zero yields zero, but every use in the engine is guarded by a positive
length. -/
def Frac.div (a b : Frac) : Frac :=
  if b.num = 0 then ⟨0, 1⟩
  else if 0 ≤ b.num then Frac.norm (a.num * b.den) (a.den * b.num.natAbs)
  else Frac.norm (-(a.num * b.den)) (a.den * b.num.natAbs)

/-- Numeric strict order on fractions by cross multiplication. -/
def Frac.lt (a b : Frac) : Bool := a.num * b.den < b.num * a.den

/-- Lexicographic strict order on character lists: the model of `Ord` on
Rust `String` (UTF-8 byte order coincides with code-point order). -/
def charsLt : List Char → List Char → Bool
  | [], [] => false
  | [], _ :: _ => true
  | _ :: _, [] => false
  | a :: as, b :: bs => a < b || (a == b && charsLt as bs)

/-- `str::starts_with`: is the second list a prefix of the first? -/
def charsStart : List Char → List Char → Bool
  | _, [] => true
  | [], _ :: _ => false
  | a :: as, b :: bs => a == b && charsStart as bs

/-- `Value` of `src/types.rs`, viewed at the numeric level for the query
engine: `Float32` carries the numeric value of the float as an exact
rational (see the header comment on exactness), `String` the text. -/
inductive Value where
  | Int32 (i : Int)
  | Float32 (f : Frac)
  | String (s : String)
deriving DecidableEq

/-- `Ord::cmp` for `Value` (`src/types.rs`): per-tag comparison, with
cross-tag pairs collapsed to `Equal`. -/
def Value.cmp : Value → Value → Ordering
  | .Int32 a, .Int32 b => if a < b then .lt else if b < a then .gt else .eq
  | .Float32 a, .Float32 b => if a.lt b then .lt else if b.lt a then .gt else .eq
  | .String a, .String b =>
    if charsLt a.data b.data then .lt
    else if charsLt b.data a.data then .gt
    else .eq
  | _, _ => .eq

/-- `PartialOrd::partial_cmp` for `Value` (`src/types.rs`): per-tag
comparison, `None` on cross-tag pairs. -/
def Value.cmpOpt : Value → Value → Option Ordering
  | .Int32 a, .Int32 b => some (if a < b then .lt else if b < a then .gt else .eq)
  | .Float32 a, .Float32 b => some (if a.lt b then .lt else if b.lt a then .gt else .eq)
  | .String a, .String b =>
    some (if charsLt a.data b.data then .lt
      else if charsLt b.data a.data then .gt
      else .eq)
  | _, _ => none

/-- Comparison operators a parsed condition can carry.  Modelled from the
spec: §4.4 requires at least equality/inequality/ordering comparisons
between a column and a literal (the `crate::query` sources are not in the
repository snapshot). -/
inductive CmpOp where
  | eq | ne | lt | le | gt | ge
deriving DecidableEq

/-- `Condition` predicate tree.  Modelled from the spec: §4.4 — column-vs-
literal comparisons composed with AND/OR/NOT (the `crate::query` sources
are not in the repository snapshot). -/
inductive Condition where
  | cmp (column : String) (op : CmpOp) (literal : Value)
  | and (a b : Condition)
  | or (a b : Condition)
  | not (a : Condition)

/-- `Column` of `crate::schema` as the planner uses it (`name`,
`data_type`).  Modelled from the spec: §2/§4.2 describe the catalog entry;
the `crate::schema` sources are not in the repository snapshot. -/
structure Column where
  name : String
  data_type : DataType
deriving DecidableEq

/-- `Table` of `crate::schema` as the planner uses it.  Modelled from the
spec: §2/§4.2 (the `crate::schema` sources are not in the repository
snapshot). -/
structure Table where
  name : String
  columns : List Column
  row_count : Nat
deriving DecidableEq

/-- `Table::get_column`: catalog lookup by column name.  Modelled from the
spec: §4.2 says the catalog answers lookups by name. -/
def Table.get_column (t : Table) (column : String) : Option Column :=
  t.columns.find? (fun c => c.name == column)

/-- One stored table: its catalog entry plus the materialized values of
each column, keyed by column name.  Modelled from the spec: §4.3/§6 — one
column store per (table, column) pair, loaded behind the storage lock. -/
structure StoredTable where
  tbl : Table
  data : List (String × List Value)

/-- The storage manager state: all stored tables.  Modelled from the spec:
§4.3 (the `crate::storage` manager sources are not in the repository
snapshot). -/
structure StorageManager where
  tables : List StoredTable

/-- Look up a column's materialized vector in a column-values map. -/
def lookupCol (colVals : List (String × List Value)) (col : String) :
    Option (List Value) :=
  (colVals.find? (fun p => p.1 == col)).map (fun p => p.2)

/-- Padding value standing in for Rust's out-of-bounds panic: the model
uses `getD` with this default, and every theorem stays on inputs where the
index is in bounds, so the default is never observable. -/
def padValue : Value := .Int32 0

/-- Apply one comparison operator to the `partial_cmp` outcome of a row
value and a literal.  Modelled from the spec: §4.4 — the evaluator fails
when the compared values have incompatible tags. -/
def applyCmpOp (op : CmpOp) (v lit : Value) : Except DbError Bool :=
  match v.cmpOpt lit with
  | none => .error (.InvalidData "incompatible types in condition")
  | some o =>
    .ok (match op with
      | .eq => o == .eq
      | .ne => o != .eq
      | .lt => o == .lt
      | .le => o != .gt
      | .gt => o == .gt
      | .ge => o != .lt)

/-- `evaluate_condition_row` of `crate::query::evaluator`.  Modelled from
the spec: §4.4 — look up each referenced column's materialized vector and
apply the comparison at the row index; fail when a referenced column is
absent from the supplied map or the compared tags are incompatible. -/
def evaluateConditionRow (cond : Condition)
    (colVals : List (String × List Value)) (i : Nat) : Except DbError Bool :=
  match cond with
  | .cmp col op lit =>
    match lookupCol colVals col with
    | none => .error (.InvalidData ("Column " ++ col ++ " not found in row data"))
    | some vs =>
      match vs.get? i with
      | none => .error (.InvalidData ("Row index out of bounds for column " ++ col))
      | some v => applyCmpOp op v lit
  | .and a b =>
    match evaluateConditionRow a colVals i with
    | .error e => .error e
    | .ok x =>
      match evaluateConditionRow b colVals i with
      | .error e => .error e
      | .ok y => .ok (x && y)
  | .or a b =>
    match evaluateConditionRow a colVals i with
    | .error e => .error e
    | .ok x =>
      match evaluateConditionRow b colVals i with
      | .error e => .error e
      | .ok y => .ok (x || y)
  | .not a =>
    match evaluateConditionRow a colVals i with
    | .error e => .error e
    | .ok x => .ok (!x)

/-- `collect_condition_columns` of `crate::query`.  Modelled from the
spec: §4.4 — statically enumerate every column a condition touches. -/
def collectConditionColumns : Condition → List String
  | .cmp col _ _ => [col]
  | .and a b => collectConditionColumns a ++ collectConditionColumns b
  | .or a b => collectConditionColumns a ++ collectConditionColumns b
  | .not a => collectConditionColumns a

/-- Sequential collect of per-item optional results, stopping at the first
error: the model of collecting an iterator of `Result<Option<_>>`-shaped
row work into `Result<Vec<_>>` (first error wins; the source's rayon
collect preserves index order and surfaces an error when present, §7). -/
def exceptFilterMap {α β : Type} (f : α → Except DbError (Option β)) :
    List α → Except DbError (List β)
  | [] => .ok []
  | x :: xs =>
    match f x with
    | .error e => .error e
    | .ok none => exceptFilterMap f xs
    | .ok (some b) => (exceptFilterMap f xs).map (fun bs => b :: bs)

/-- Sequential collect of per-item list results with concatenation,
stopping at the first error: the model of `flat_map` + `collect` over
`Result`s. -/
def exceptFlatMap {α β : Type} (f : α → Except DbError (List β)) :
    List α → Except DbError (List β)
  | [] => .ok []
  | x :: xs =>
    match f x with
    | .error e => .error e
    | .ok bs => (exceptFlatMap f xs).map (fun rest => bs ++ rest)

/-- The schema catalog lookup (`storage.schema().get_table(name)`).
Modelled from the spec: §4.2 — mapping by table name with unique keys. -/
def getTable (sm : StorageManager) (table : String) : Option Table :=
  (sm.tables.find? (fun st => st.tbl.name == table)).map (fun st => st.tbl)

/-- `StorageManager::read_column`.  Modelled from the spec: §4.3 — return
the column's materialized values; when a condition is supplied, keep only
the values at row positions where the predicate holds, evaluating it over
the table's own column data; fail with an `InvalidData`-class error when
the table or column is unknown. -/
def readColumn (sm : StorageManager) (table col : String)
    (cond : Option Condition) : Except DbError (List Value) :=
  match sm.tables.find? (fun st => st.tbl.name == table) with
  | none => .error (.InvalidData ("Table " ++ table ++ " not found"))
  | some st =>
    match lookupCol st.data col with
    | none => .error (.InvalidData ("Column " ++ table ++ "." ++ col ++ " not found"))
    | some values =>
      match cond with
      | none => .ok values
      | some c =>
        exceptFilterMap (fun i =>
          (evaluateConditionRow c st.data i).map
            (fun b => if b then some (values.getD i padValue) else none))
          (List.range values.length)

/-- `usize::MAX`, the initial value of the planner's running row-count
minima (64-bit target). -/
def usizeMAX : Nat := 18446744073709551615

/-- A storage-read log entry: the (table, column) pair passed to
`read_column`.  The executors below return, next to their result, the list
of reads they issued in order (failing reads included last). -/
abbrev ReadLog := List (String × String)

/-- Read the listed columns of one table in order
(`QueryEngine::execute_select`, planner.rs lines 125–132): each read goes
through `read_column` with the query's condition; results are keyed by
column name, and the first failing read aborts. -/
def readColumns (sm : StorageManager) (table : String) (cond : Option Condition) :
    List String → Except DbError (List (String × List Value)) × ReadLog
  | [] => (.ok [], [])
  | c :: rest =>
    match readColumn sm table c cond with
    | .error e => (.error e, [(table, c)])
    | .ok vs =>
      match readColumns sm table cond rest with
      | (r, log) => (r.map (fun m => (c, vs) :: m), (table, c) :: log)

/-- Validation-and-collection loop over the condition's columns
(`QueryEngine::execute_select`, planner.rs lines 113–123): reject the
first condition column missing from the catalog, and append each new one
to the required-columns list. -/
def resolveCondCols (tdef : Table) (table : String) :
    List String → List String → Except DbError (List String)
  | req, [] => .ok req
  | req, c :: rest =>
    if tdef.columns.any (fun cd => cd.name == c) then
      resolveCondCols tdef table (if req.contains c then req else req ++ [c]) rest
    else .error (.InvalidData ("Column " ++ table ++ "." ++ c ++ " not found in condition"))

/-- Build one projected output row (`columns.iter().map(|col|
column_values.get(col).unwrap()[i].clone())`). -/
def buildRow (columns : List String) (colVals : List (String × List Value))
    (i : Nat) : List Value :=
  columns.map (fun col => ((lookupCol colVals col).getD []).getD i padValue)

/-- The per-row filter/projection loop of `execute_select` (planner.rs
lines 135–154): row indices `0..min_row_count`; with a condition, a row is
kept when the condition evaluates to true over the materialized vectors. -/
def selectRows (cond : Option Condition) (colVals : List (String × List Value))
    (columns : List String) (minRow : Nat) : Except DbError (List (List Value)) :=
  exceptFilterMap (fun i =>
    match cond with
    | some c =>
      (evaluateConditionRow c colVals i).map
        (fun b => if b then some (buildRow columns colVals i) else none)
    | none => .ok (some (buildRow columns colVals i)))
    (List.range minRow)

/-- `QueryEngine::execute_select` (planner.rs lines 91–156): resolve the
table, validate projection then condition columns against the catalog,
read every required column, then filter/project over row indices
`0..min_row_count` where `min_row_count` is the minimum length among the
read column vectors (starting from `usize::MAX`). -/
def executeSelect (sm : StorageManager) (table : String) (columns : List String)
    (cond : Option Condition) : Except DbError (List (List Value)) × ReadLog :=
  match getTable sm table with
  | none => (.error (.InvalidData ("Table " ++ table ++ " not found")), [])
  | some tdef =>
    match columns.find? (fun c => !(tdef.columns.any (fun cd => cd.name == c))) with
    | some c => (.error (.InvalidData ("Column " ++ table ++ "." ++ c ++ " not found")), [])
    | none =>
      let condCols := match cond with
        | some c => collectConditionColumns c
        | none => []
      match resolveCondCols tdef table columns condCols with
      | .error e => (.error e, [])
      | .ok required =>
        match readColumns sm table cond required with
        | (.error e, log) => (.error e, log)
        | (.ok colVals, log) =>
          let minRow := colVals.foldl (fun acc p => min acc p.2.length) usizeMAX
          (selectRows cond colVals columns minRow, log)

/-- `Aggregation` of `crate::query`, as matched by the planner
(`Count`, `Sum(col)`, `Avg(col)`, `Min(col)`, `Max(col)`). -/
inductive Aggregation where
  | Count
  | Sum (col : String)
  | Avg (col : String)
  | Min (col : String)
  | Max (col : String)
deriving DecidableEq

/-- The column an aggregation reads (planner.rs lines 176–179): `Count`
always reads the literal column name `"ID"`. -/
def aggColumn : Aggregation → String
  | .Count => "ID"
  | .Sum c => c
  | .Avg c => c
  | .Min c => c
  | .Max c => c

/-- `values.len() as i32`: a `usize` length cast to `i32` with two's
complement wrap-around. -/
def int32OfNat (n : Nat) : Int :=
  if n % 4294967296 < 2147483648 then (n % 4294967296 : Nat)
  else (n % 4294967296 : Nat) - 4294967296

/-- The running-sum fold shared by `Sum` and `Avg` (planner.rs lines
193–201 and 209–217): start from `Float32(0.0)`; add floats directly, add
ints cast to float, leave the accumulator unchanged on any other pair. -/
def sumFold (values : List Value) : Value :=
  values.foldl (fun acc v =>
    match acc, v with
    | .Float32 a, .Float32 b => .Float32 (a.add b)
    | .Float32 a, .Int32 b => .Float32 (a.add (Frac.ofInt b))
    | _, _ => acc) (.Float32 (Frac.ofInt 0))

/-- `Iterator::min_by(|a, b| a.cmp(b))`: the first minimal element. -/
def listMinBy (f : Value → Value → Ordering) : List Value → Option Value
  | [] => none
  | v :: rest => some (rest.foldl (fun acc x => if f x acc = .lt then x else acc) v)

/-- `Iterator::max_by(|a, b| a.cmp(b))`: the last maximal element. -/
def listMaxBy (f : Value → Value → Ordering) : List Value → Option Value
  | [] => none
  | v :: rest => some (rest.foldl (fun acc x => if f acc x = .gt then acc else x) v)

/-- The scalar one aggregation produces from the read column values
(planner.rs lines 185–235): `Count` is the value-vector length as `i32`;
`Sum`/`Avg` first require a numeric column type and then fold through
float arithmetic, `Avg` dividing by the length when it is positive;
`Min`/`Max` use `Value::cmp` and fall back to `Float32(0.0)` on an empty
column. -/
def computeAgg (agg : Aggregation) (cdef : Column) (values : List Value) :
    Except DbError Value :=
  match agg with
  | .Count => .ok (.Int32 (int32OfNat values.length))
  | .Sum _ =>
    if cdef.data_type ≠ DataType.Float32 ∧ cdef.data_type ≠ DataType.Int32 then
      .error (.InvalidData ("SUM not supported for type " ++ dataTypeName cdef.data_type))
    else .ok (sumFold values)
  | .Avg _ =>
    if cdef.data_type ≠ DataType.Float32 ∧ cdef.data_type ≠ DataType.Int32 then
      .error (.InvalidData ("AVG not supported for type " ++ dataTypeName cdef.data_type))
    else
      match sumFold values with
      | .Float32 s =>
        if 0 < values.length then
          .ok (.Float32 (s.div (Frac.ofInt (values.length : Int))))
        else .ok (.Float32 (Frac.ofInt 0))
      | _ => .ok (.Float32 (Frac.ofInt 0))
  | .Min _ => .ok ((listMinBy Value.cmp values).getD (.Float32 (Frac.ofInt 0)))
  | .Max _ => .ok ((listMaxBy Value.cmp values).getD (.Float32 (Frac.ofInt 0)))

/-- One iteration of the aggregation loop (planner.rs lines 175–236):
resolve the aggregation's column in the catalog, read it, compute the
scalar; the second component lists the read this iteration issues (empty
when the catalog lookup already failed, since `read_column` is then never
called). -/
def aggStep (sm : StorageManager) (table : String) (tdef : Table)
    (cond : Option Condition) (agg : Aggregation) :
    Except DbError Value × ReadLog :=
  let column := aggColumn agg
  match tdef.get_column column with
  | none =>
    (.error (.InvalidData ("Column " ++ table ++ "." ++ column ++ " not found")), [])
  | some cdef =>
    match readColumn sm table column cond with
    | .error e => (.error e, [(table, column)])
    | .ok values => (computeAgg agg cdef values, [(table, column)])

/-- The aggregation loop over the requested aggregations, accumulating the
scalars in order and the reads attempted so far; the first failing step
aborts. -/
def aggLoop (sm : StorageManager) (table : String) (tdef : Table)
    (cond : Option Condition) : List Aggregation → Except DbError (List Value) × ReadLog
  | [] => (.ok [], [])
  | agg :: rest =>
    let s := aggStep sm table tdef cond agg
    match s.1 with
    | .error e => (.error e, s.2)
    | .ok v =>
      let r := aggLoop sm table tdef cond rest
      (r.1.map (fun vs => v :: vs), s.2 ++ r.2)

/-- `QueryEngine::execute_aggregate` (planner.rs lines 158–239): resolve
the table, run every aggregation in order, and wrap all scalars into one
single output row. -/
def executeAggregate (sm : StorageManager) (table : String)
    (aggs : List Aggregation) (cond : Option Condition) :
    Except DbError (List (List Value)) × ReadLog :=
  match getTable sm table with
  | none => (.error (.InvalidData ("Table " ++ table ++ " not found")), [])
  | some tdef =>
    match aggLoop sm table tdef cond aggs with
    | (res, log) => (res.map (fun results => [results]), log)

/-- Qualifier parsing for a join output column (planner.rs lines 258–263):
`"table.column"` splits at the dot, an unqualified name defaults to the
left table. -/
def parseJoinCol (leftTable : String) (col : String) : String × String :=
  if col.data.contains '.' then
    (String.mk (col.data.takeWhile (fun c => c ≠ '.')),
     String.mk (((col.data.dropWhile (fun c => c ≠ '.')).drop 1).takeWhile
       (fun c => c ≠ '.')))
  else (leftTable, col)

/-- The output-column read loop of `execute_join` (planner.rs lines
254–271): read each output column (with the query condition), track the
running minimum row count per side — a column counts toward the right side
exactly when its parsed table name equals the right table — and key the
values by the unparsed column name. -/
def joinColsLoop (sm : StorageManager) (leftTable rightTable : String)
    (cond : Option Condition) :
    List String → Except DbError (List (String × List Value) × Nat × Nat) × ReadLog
  | [] => (.ok ([], usizeMAX, usizeMAX), [])
  | col :: rest =>
    match parseJoinCol leftTable col with
    | (tbl, colName) =>
      match readColumn sm tbl colName cond with
      | .error e => (.error e, [(tbl, colName)])
      | .ok values =>
        match joinColsLoop sm leftTable rightTable cond rest with
        | (r, log) =>
          (r.map (fun m =>
            if tbl == rightTable then
              ((col, values) :: m.1, m.2.1, min m.2.2 values.length)
            else
              ((col, values) :: m.1, min m.2.1 values.length, m.2.2)),
           (tbl, colName) :: log)

/-- Extraction of one combined row's cells (planner.rs lines 281–292): for
each output column, index with the right row index when the column name
starts with the right table's name, the left row index otherwise; an
out-of-bounds index is the one failure the source checks explicitly. -/
def joinRowCells (colMap : List (String × List Value)) (rightTable : String)
    (i j : Nat) : List String → Except DbError (List Value)
  | [] => .ok []
  | col :: rest =>
    match lookupCol colMap col with
    | values? =>
      match (values?.getD [], if charsStart col.data rightTable.data then j else i) with
      | (values, index) =>
        if index < values.length then
          match joinRowCells colMap rightTable i j rest with
          | .error e => .error e
          | .ok vs => .ok (values.getD index padValue :: vs)
        else
          .error (.InvalidData ("Index out of bounds for column " ++ col))

/-- The nested-loop match phase of `execute_join` (planner.rs lines
274–299): for each left row index below the left minimum, scan every right
row index below the right minimum and emit one combined row per pair whose
join-column values are equal. -/
def joinRows (leftValues rightValues : List Value) (columns : List String)
    (colMap : List (String × List Value)) (rightTable : String)
    (minL minR : Nat) : Except DbError (List (List Value)) :=
  exceptFlatMap (fun i =>
    exceptFilterMap (fun j =>
      if leftValues.getD i padValue = rightValues.getD j padValue then
        (joinRowCells colMap rightTable i j columns).map (fun row => some row)
      else .ok none)
      (List.range minR))
    (List.range minL)

/-- `QueryEngine::execute_join` (planner.rs lines 241–301): read the two
join columns (condition applied), read the output columns, then run the
nested-loop equality join. -/
def executeJoin (sm : StorageManager) (leftTable rightTable : String)
    (leftColumn rightColumn : String) (columns : List String)
    (cond : Option Condition) : Except DbError (List (List Value)) × ReadLog :=
  match readColumn sm leftTable leftColumn cond with
  | .error e => (.error e, [(leftTable, leftColumn)])
  | .ok leftValues =>
    match readColumn sm rightTable rightColumn cond with
    | .error e => (.error e, [(leftTable, leftColumn), (rightTable, rightColumn)])
    | .ok rightValues =>
      match joinColsLoop sm leftTable rightTable cond columns with
      | (.error e, log) =>
        (.error e, (leftTable, leftColumn) :: (rightTable, rightColumn) :: log)
      | (.ok (colMap, minL, minR), log) =>
        (joinRows leftValues rightValues columns colMap rightTable minL minR,
         (leftTable, leftColumn) :: (rightTable, rightColumn) :: log)

/-- Fixture: table `T(id:Int32, name:String)` with rows
`[(1,"a"),(2,"b"),(3,"c")]` (spec §8, Select correctness). -/
def smT : StorageManager :=
  ⟨[⟨⟨"T", [⟨"id", .Int32⟩, ⟨"name", .String⟩], 3⟩,
     [("id", [.Int32 1, .Int32 2, .Int32 3]),
      ("name", [.String "a", .String "b", .String "c"])]⟩]⟩

/-- Fixture: tables `L(id:Int32)` with `id = [1,2]` and `R(lid:Int32)` with
`lid = [2,2,3]` (spec §8, Join correctness). -/
def smLR : StorageManager :=
  ⟨[⟨⟨"L", [⟨"id", .Int32⟩], 2⟩, [("id", [.Int32 1, .Int32 2])]⟩,
    ⟨⟨"R", [⟨"lid", .Int32⟩], 3⟩, [("lid", [.Int32 2, .Int32 2, .Int32 3])]⟩]⟩

/-- Fixture: table `t(ID:Int32)` with values `[1,2,3,4]` (spec §8,
Aggregate correctness; the column is named `ID` so that `Count` can read
it). -/
def smAgg : StorageManager :=
  ⟨[⟨⟨"t", [⟨"ID", .Int32⟩], 4⟩,
     [("ID", [.Int32 1, .Int32 2, .Int32 3, .Int32 4])]⟩]⟩

/-- Fixture: table `t(x:Int32)` with the single value `0`; it has no
column named `ID` and no column named `nope`. -/
def smX : StorageManager :=
  ⟨[⟨⟨"t", [⟨"x", .Int32⟩], 1⟩, [("x", [.Int32 0])]⟩]⟩

/-- Fixture: table `t(s:String)` with one row, for the numeric-only guard
on `Sum`/`Avg`. -/
def smS : StorageManager :=
  ⟨[⟨⟨"t", [⟨"s", .String⟩], 1⟩, [("s", [.String "a"])]⟩]⟩

/-- Fixture: table `U(id:Int32, name:String)` with uneven column lengths:
`id` has three values but `name` only one. -/
def smU : StorageManager :=
  ⟨[⟨⟨"U", [⟨"id", .Int32⟩, ⟨"name", .String⟩], 3⟩,
     [("id", [.Int32 1, .Int32 2, .Int32 3]),
      ("name", [.String "a"])]⟩]⟩

end Engine

namespace Codec

theorem deserialize_int32_def (bytes : List Nat) :
    deserialize DataType.Int32 bytes =
      if 4 ≤ bytes.length then .ok (.Int32 (i32FromLe bytes))
      else .error (.SerializationError "Insufficient bytes for Int32") := rfl

theorem deserialize_float32_def (bytes : List Nat) :
    deserialize DataType.Float32 bytes =
      if 4 ≤ bytes.length then .ok (.Float32 (u32FromLe bytes))
      else .error (.SerializationError "Insufficient bytes for Float32") := rfl

theorem deserialize_string_def (bytes : List Nat) :
    deserialize DataType.String bytes =
      if 4 ≤ bytes.length then
        if 4 + u32FromLe bytes ≤ bytes.length then
          if validUTF8 ((bytes.drop 4).take (u32FromLe bytes)) then
            .ok (.String ((bytes.drop 4).take (u32FromLe bytes)))
          else .error (.SerializationError "invalid utf-8 sequence")
        else .error (.SerializationError "Insufficient bytes for String")
      else .error (.SerializationError "Insufficient bytes for String length") := rfl


theorem u32FromLe_toLeBytes4 (n : Nat) : u32FromLe (toLeBytes4 n) = n % 4294967296 := by
  simp only [u32FromLe, toLeBytes4, List.getD_cons_zero, List.getD_cons_succ]
  omega

theorem length_toLeBytes4 (n : Nat) : (toLeBytes4 n).length = 4 := rfl

theorem u32FromLe_append (bs extra : List Nat) (h : 4 ≤ bs.length) :
    u32FromLe (bs ++ extra) = u32FromLe bs := by
  unfold u32FromLe
  rw [List.getD_append _ _ _ _ (by omega), List.getD_append _ _ _ _ (by omega),
    List.getD_append _ _ _ _ (by omega), List.getD_append _ _ _ _ (by omega)]

theorem validUTF8From_cons_ascii (l : List Nat) :
    validUTF8From (0, 0, 0) (97 :: l) = validUTF8From (0, 0, 0) l := rfl

theorem validUTF8_replicate_a (n : Nat) : validUTF8 (List.replicate n 97) = true := by
  unfold validUTF8
  induction n with
  | zero => rfl
  | succ k ih => rw [List.replicate_succ, validUTF8From_cons_ascii]; exact ih

theorem i32_roundtrip (i : Int) (h1 : -2147483648 ≤ i) (h2 : i < 2147483648) :
    i32FromLe (toLeBytes4 (i % 4294967296).toNat) = i := by
  unfold i32FromLe
  rw [u32FromLe_toLeBytes4]
  split <;> omega

/-- C1 (amended): deserializing the serialization of a representable value
under its own data type returns the value back, provided a `String`
payload is shorter than `2^32` bytes (the length prefix is the byte length
cast `as u32`, so exactly the multiples of `2^32` wrap). -/
theorem roundtrip_ok (v : Value) (hrep : Representable v)
    (hlen : ∀ bs, v = Value.String bs → bs.length < 4294967296) :
    deserialize v.dataType (serialize v) = .ok v := by
  match v with
  | .Int32 i =>
    obtain ⟨h1, h2⟩ := hrep
    simp only [Value.dataType, serialize, deserialize, length_toLeBytes4]
    rw [if_pos (by omega), i32_roundtrip i h1 h2]
  | .Float32 bits =>
    have hb : bits < 4294967296 := hrep
    simp only [Value.dataType, serialize, deserialize, length_toLeBytes4]
    rw [if_pos (by omega), u32FromLe_toLeBytes4, Nat.mod_eq_of_lt hb]
  | .String bs =>
    have hv : validUTF8 bs = true := hrep
    have hL : bs.length < 4294967296 := hlen bs rfl
    simp only [Value.dataType, serialize, deserialize]
    have hlen4 : (toLeBytes4 bs.length).length = 4 := rfl
    have hu : u32FromLe (toLeBytes4 bs.length ++ bs) = bs.length := by
      rw [u32FromLe_append _ _ (by rw [hlen4]), u32FromLe_toLeBytes4, Nat.mod_eq_of_lt hL]
    have hdrop : (toLeBytes4 bs.length ++ bs).drop 4 = bs := List.drop_left' hlen4
    have hlength : (toLeBytes4 bs.length ++ bs).length = 4 + bs.length := by
      rw [List.length_append, hlen4]
    rw [hu, hdrop, List.take_length, hlength]
    rw [if_pos (by omega), if_pos (by omega), if_pos hv]

/-- C1 counterexample: the `String` of `2^32` ASCII bytes is representable,
but its serialization carries a wrapped-to-zero length prefix, so
deserializing it returns the empty string instead of the original value:
the round-trip claim fails as universally stated. -/
theorem roundtrip_large_string_fails :
    Representable (Value.String (List.replicate 4294967296 97)) ∧
    deserialize DataType.String (serialize (Value.String (List.replicate 4294967296 97)))
      = .ok (Value.String []) ∧
    Value.String ([] : List Nat) ≠ Value.String (List.replicate 4294967296 97) := by
  refine ⟨validUTF8_replicate_a _, ?_, ?_⟩
  · have hser : serialize (Value.String (List.replicate 4294967296 97)) =
        [0, 0, 0, 0] ++ List.replicate 4294967296 97 := by
      show toLeBytes4 (List.replicate 4294967296 (97 : Nat)).length ++
          List.replicate 4294967296 97 = [0, 0, 0, 0] ++ List.replicate 4294967296 97
      rw [List.length_replicate]
      rfl
    rw [hser, deserialize_string_def]
    have hu : u32FromLe ([0, 0, 0, 0] ++ List.replicate 4294967296 97) = 0 := by
      rw [u32FromLe_append _ _ (by simp)]
      rfl
    have hlength : (([0, 0, 0, 0] : List Nat) ++ List.replicate 4294967296 97).length =
        4 + 4294967296 := by
      rw [List.length_append, List.length_replicate]
      rfl
    rw [hu, hlength, List.take_zero]
    rw [if_pos (by omega), if_pos (by omega),
      if_pos (show validUTF8 ([] : List Nat) = true from rfl)]
  · intro h
    injection h with h2
    have h3 := congrArg List.length h2
    rw [List.length_nil, List.length_replicate] at h3
    exact absurd h3 (by omega)

/-- C1 witness: the round-trip theorem applied to a concrete short string. -/
theorem roundtrip_ok_witness :
    Representable (Value.String [104, 105]) ∧
    deserialize (Value.String [104, 105]).dataType (serialize (Value.String [104, 105]))
      = .ok (Value.String [104, 105]) :=
  ⟨(by decide : validUTF8 [104, 105] = true),
   roundtrip_ok _ (by decide : validUTF8 [104, 105] = true)
     (fun bs h => by injection h with h2; rw [← h2]; decide)⟩

/-- C6: `deserialize` fails exactly when the buffer is too short for the
declared type (four bytes for `Int32`/`Float32`), or — for `String` — too
short for the four-byte length prefix or the declared payload length, or
when the declared-length payload is not valid UTF-8; every failure is a
`SerializationError`, and in the remaining cases it succeeds, ignoring any
trailing bytes. -/
theorem deserialize_outcomes (bytes : List Nat) :
    ((∃ v, deserialize DataType.Int32 bytes = .ok v) ↔ 4 ≤ bytes.length) ∧
    ((∃ v, deserialize DataType.Float32 bytes = .ok v) ↔ 4 ≤ bytes.length) ∧
    ((∃ v, deserialize DataType.String bytes = .ok v) ↔
      (4 ≤ bytes.length ∧ 4 + u32FromLe bytes ≤ bytes.length ∧
        validUTF8 ((bytes.drop 4).take (u32FromLe bytes)) = true)) ∧
    (∀ dt e, deserialize dt bytes = .error e → ∃ s, e = DbError.SerializationError s) ∧
    (∀ dt extra v, deserialize dt bytes = .ok v →
      deserialize dt (bytes ++ extra) = deserialize dt bytes) := by
  refine ⟨?_, ?_, ?_, ?_, ?_⟩
  · by_cases h : 4 ≤ bytes.length <;> simp [deserialize, h]
  · by_cases h : 4 ≤ bytes.length <;> simp [deserialize, h]
  · by_cases h1 : 4 ≤ bytes.length
    · by_cases h2 : 4 + u32FromLe bytes ≤ bytes.length
      · by_cases h3 : validUTF8 ((bytes.drop 4).take (u32FromLe bytes)) = true <;>
          simp [deserialize, h1, h2, h3]
      · simp [deserialize, h1, h2]
    · simp [deserialize, h1]
  · intro dt e h
    cases dt <;> simp only [deserialize] at h <;> split_ifs at h <;>
      simp only [Except.error.injEq] at h <;> exact ⟨_, h.symm⟩
  · intro dt extra v h
    have hlen : (bytes ++ extra).length = bytes.length + extra.length := List.length_append _ _
    cases dt
    · have h4 : 4 ≤ bytes.length := by
        by_contra hn
        simp [deserialize, hn] at h
      simp only [deserialize, i32FromLe, u32FromLe_append bytes extra h4]
      rw [if_pos (by omega), if_pos h4]
    · have h4 : 4 ≤ bytes.length := by
        by_contra hn
        simp [deserialize, hn] at h
      simp only [deserialize, u32FromLe_append bytes extra h4]
      rw [if_pos (by omega), if_pos h4]
    · have h4 : 4 ≤ bytes.length := by
        by_contra hn
        simp [deserialize, hn] at h
      have h5 : 4 + u32FromLe bytes ≤ bytes.length := by
        by_contra hn
        simp [deserialize, h4, hn] at h
      have hdrop : (bytes ++ extra).drop 4 = bytes.drop 4 ++ extra :=
        List.drop_append_of_le_length h4
      have htake : (bytes.drop 4 ++ extra).take (u32FromLe bytes) =
          (bytes.drop 4).take (u32FromLe bytes) :=
        List.take_append_of_le_length (by rw [List.length_drop]; omega)
      simp only [deserialize, u32FromLe_append bytes extra h4, hdrop, htake]
      rw [if_pos (by omega), if_pos (by omega), if_pos h4, if_pos h5]

/-- C6 witness: the characterization applied to a concrete valid buffer,
exercising the trailing-bytes clause. -/
theorem deserialize_outcomes_witness :
    deserialize DataType.String ([1, 0, 0, 0, 65] ++ [9]) =
      deserialize DataType.String [1, 0, 0, 0, 65] :=
  (deserialize_outcomes [1, 0, 0, 0, 65]).2.2.2.2 DataType.String [9]
    (Value.String [65]) rfl

/-- C9: `serialized_size` returns exactly the byte length that `serialize`
produces: 4 for `Int32` and `Float32`, and 4 plus the UTF-8 byte length of
the text for `String`, with no restriction on how long the text is. -/
theorem serializedSize_correct (v : Value) : serializedSize v = (serialize v).length := by
  cases v with
  | Int32 i => rfl
  | Float32 bits => rfl
  | String bytes =>
    simp [serializedSize, serialize, toLeBytes4, List.length_append]
    omega

end Codec

namespace Engine

theorem exceptFilterMap_ok {α β : Type} (f : α → Except DbError (Option β))
    (p : α → Bool) (g : α → β) (l : List α)
    (h : ∀ x ∈ l, f x = .ok (if p x then some (g x) else none)) :
    exceptFilterMap f l = .ok ((l.filter p).map g) := by
  induction l with
  | nil => rfl
  | cons x xs ih =>
    have hx := h x (List.mem_cons_self x xs)
    have hxs := ih (fun y hy => h y (List.mem_cons_of_mem x hy))
    by_cases hp : p x = true
    · simp [exceptFilterMap, hx, hp, List.filter_cons, hxs, Except.map]
    · simp only [Bool.not_eq_true] at hp
      simp [exceptFilterMap, hx, hp, List.filter_cons, hxs, Except.map]

theorem exceptFlatMap_ok {α β : Type} (f : α → Except DbError (List β))
    (g : α → List β) (l : List α) (h : ∀ x ∈ l, f x = .ok (g x)) :
    exceptFlatMap f l = .ok (l.flatMap g) := by
  induction l with
  | nil => rfl
  | cons x xs ih =>
    have hx := h x (List.mem_cons_self x xs)
    have hxs := ih (fun y hy => h y (List.mem_cons_of_mem x hy))
    simp [exceptFlatMap, hx, hxs, Except.map]

theorem exceptFilterMap_error {α β : Type} (f : α → Except DbError (Option β))
    (l : List α) (e : DbError) (h : exceptFilterMap f l = .error e) :
    ∃ x ∈ l, f x = .error e := by
  induction l with
  | nil => exact absurd h (by simp [exceptFilterMap])
  | cons x xs ih =>
    simp only [exceptFilterMap] at h
    split at h
    · exact ⟨x, List.mem_cons_self x xs, by simp_all⟩
    · obtain ⟨y, hy, hfy⟩ := ih h
      exact ⟨y, List.mem_cons_of_mem x hy, hfy⟩
    · rcases hrec : exceptFilterMap f xs with e2 | bs
      · rw [hrec] at h
        simp only [Except.map] at h
        injection h with h2
        obtain ⟨y, hy, hfy⟩ := ih (by rw [hrec, h2])
        exact ⟨y, List.mem_cons_of_mem x hy, hfy⟩
      · rw [hrec] at h
        simp [Except.map] at h

theorem sumFold_float (values : List Value) : ∃ s, sumFold values = .Float32 s := by
  have hgen : ∀ (l : List Value) (a : Frac), ∃ s,
      l.foldl (fun acc v =>
        match acc, v with
        | Value.Float32 x, Value.Float32 b => Value.Float32 (x.add b)
        | Value.Float32 x, Value.Int32 b => Value.Float32 (x.add (Frac.ofInt b))
        | _, _ => acc) (Value.Float32 a) = Value.Float32 s := by
    intro l
    induction l with
    | nil => exact fun a => ⟨a, rfl⟩
    | cons v vs ih =>
      intro a
      cases v with
      | Int32 b => exact ih (a.add (Frac.ofInt b))
      | Float32 b => exact ih (a.add b)
      | String t => exact ih a
  exact hgen values (Frac.ofInt 0)

theorem int32OfNat_small (n : Nat) (h : n < 2147483648) : int32OfNat n = (n : Int) := by
  unfold int32OfNat
  rw [Nat.mod_eq_of_lt (by omega)]
  rw [if_pos (by omega)]

theorem evaluateConditionRow_error_invalid (c : Condition)
    (m : List (String × List Value)) (i : Nat) :
    ∀ e, evaluateConditionRow c m i = .error e → e.isInvalidData = true := by
  induction c with
  | cmp col op lit =>
    intro e h
    simp only [evaluateConditionRow] at h
    split at h
    · injection h with h2
      rw [← h2]
      rfl
    · split at h
      · injection h with h2
        rw [← h2]
        rfl
      · simp only [applyCmpOp] at h
        split at h
        · injection h with h2
          rw [← h2]
          rfl
        · cases h
  | and a b iha ihb =>
    intro e h
    simp only [evaluateConditionRow] at h
    split at h
    · injection h with h2
      exact iha e (by rw [← h2]; assumption)
    · split at h
      · injection h with h2
        exact ihb e (by rw [← h2]; assumption)
      · cases h
  | or a b iha ihb =>
    intro e h
    simp only [evaluateConditionRow] at h
    split at h
    · injection h with h2
      exact iha e (by rw [← h2]; assumption)
    · split at h
      · injection h with h2
        exact ihb e (by rw [← h2]; assumption)
      · cases h
  | not a iha =>
    intro e h
    simp only [evaluateConditionRow] at h
    split at h
    · injection h with h2
      exact iha e (by rw [← h2]; assumption)
    · cases h

theorem readColumn_error_invalid (sm : StorageManager) (table col : String)
    (cond : Option Condition) (e : DbError)
    (h : readColumn sm table col cond = .error e) : e.isInvalidData = true := by
  simp only [readColumn] at h
  split at h
  · injection h with h2
    rw [← h2]
    rfl
  · split at h
    · injection h with h2
      rw [← h2]
      rfl
    · split at h
      · cases h
      · obtain ⟨i, _, hfi⟩ := exceptFilterMap_error _ _ _ h
        rcases hev : evaluateConditionRow _ _ i with e2 | b
        · rw [hev] at hfi
          simp only [Except.map] at hfi
          injection hfi with h2
          exact evaluateConditionRow_error_invalid _ _ _ _ (by rw [hev, h2])
        · rw [hev] at hfi
          simp [Except.map] at hfi

theorem computeAgg_error_invalid (agg : Aggregation) (cdef : Column)
    (values : List Value) (e : DbError)
    (h : computeAgg agg cdef values = .error e) : e.isInvalidData = true := by
  cases agg <;> simp only [computeAgg] at h
  · cases h
  · split at h
    · injection h with h2
      rw [← h2]
      rfl
    · cases h
  · split at h
    · injection h with h2
      rw [← h2]
      rfl
    · split at h
      · split at h
        · cases h
        · cases h
      · cases h
  · cases h
  · cases h

theorem aggStep_error_invalid (sm : StorageManager) (table : String) (tdef : Table)
    (cond : Option Condition) (agg : Aggregation) (e : DbError)
    (h : (aggStep sm table tdef cond agg).1 = .error e) : e.isInvalidData = true := by
  simp only [aggStep] at h
  split at h
  · injection h with h2
    rw [← h2]
    rfl
  · split at h
    · injection h with h2
      rw [← h2]
      exact readColumn_error_invalid _ _ _ _ _ (by assumption)
    · exact computeAgg_error_invalid _ _ _ _ h

theorem aggLoop_error_invalid (sm : StorageManager) (table : String) (tdef : Table)
    (cond : Option Condition) (aggs : List Aggregation) (a : Aggregation)
    (ha : a ∈ aggs) (hstep : ∀ v, (aggStep sm table tdef cond a).1 ≠ .ok v) :
    ∃ msg, (aggLoop sm table tdef cond aggs).1 = .error (.InvalidData msg) := by
  induction aggs with
  | nil => cases ha
  | cons x xs ih =>
    rcases hx : (aggStep sm table tdef cond x).1 with e | v
    · have hinv := aggStep_error_invalid sm table tdef cond x e hx
      obtain ⟨msg, rfl⟩ : ∃ msg, e = DbError.InvalidData msg := by
        cases e <;> simp_all [DbError.isInvalidData]
      exact ⟨msg, by simp [aggLoop, hx]⟩
    · rcases List.mem_cons.mp ha with rfl | hmem
      · exact absurd hx (hstep v)
      · obtain ⟨msg, hmsg⟩ := ih hmem
        refine ⟨msg, ?_⟩
        simp [aggLoop, hx, hmsg, Except.map]

theorem readColumns_ok (sm : StorageManager) (table : String)
    (cond : Option Condition) (v : String → List Value) :
    ∀ cols : List String, (∀ c ∈ cols, readColumn sm table c cond = .ok (v c)) →
    readColumns sm table cond cols =
      (.ok (cols.map (fun c => (c, v c))), cols.map (fun c => (table, c))) := by
  intro cols
  induction cols with
  | nil => intro _; rfl
  | cons c cs ih =>
    intro h
    have hc := h c (List.mem_cons_self c cs)
    have hcs := ih (fun y hy => h y (List.mem_cons_of_mem c hy))
    simp [readColumns, hc, hcs, Except.map]

theorem selectRows_none (colVals : List (String × List Value))
    (columns : List String) (n : Nat) :
    selectRows none colVals columns n =
      .ok ((List.range n).map (buildRow columns colVals)) := by
  have h := exceptFilterMap_ok (fun i => .ok (some (buildRow columns colVals i)))
    (fun _ => true) (buildRow columns colVals) (List.range n) (fun i _ => by simp)
  simpa [selectRows, List.filter_true] using h

/-- C2: on `T(id:Int32, name:String)` with rows `[(1,"a"),(2,"b"),(3,"c")]`,
selecting `name` where `id > 1` returns exactly the set of rows
`{["b"], ["c"]}`; on a table with uneven column lengths only the minimum
count of rows is considered; and in general the number of row indices a
(condition-free) Select considers equals the minimum length over all read
column vectors. -/
theorem select_considers_min_rows :
    ((executeSelect smT "T" ["name"] (some (.cmp "id" .gt (.Int32 1)))).1 =
      .ok [[.String "b"], [.String "c"]]) ∧
    ((executeSelect smU "U" ["id", "name"] none).1 =
      .ok [[.Int32 1, .String "a"]]) ∧
    (∀ (sm : StorageManager) (table : String) (columns : List String)
        (tdef : Table) (v : String → List Value),
      getTable sm table = some tdef →
      (∀ c ∈ columns, tdef.columns.any (fun cd => cd.name == c) = true) →
      (∀ c ∈ columns, readColumn sm table c none = .ok (v c)) →
      ∃ rows, executeSelect sm table columns none =
          (.ok rows, columns.map (fun c => (table, c))) ∧
        rows.length = (columns.map (fun c => (v c).length)).foldl min usizeMAX) := by
  refine ⟨rfl, rfl, ?_⟩
  intro sm table columns tdef v hget hvalid hread
  have hfind : columns.find?
      (fun c => !(tdef.columns.any (fun cd => cd.name == c))) = none := by
    rw [List.find?_eq_none]
    intro c hc
    simp [hvalid c hc]
  have hreadc := readColumns_ok sm table none v columns hread
  refine ⟨(List.range ((columns.map (fun c => (c, v c))).foldl
      (fun acc p => min acc p.2.length) usizeMAX)).map
      (buildRow columns (columns.map (fun c => (c, v c)))), ?_, ?_⟩
  · simp only [executeSelect, hget, hfind, resolveCondCols, hreadc, selectRows_none]
  · simp only [List.length_map, List.length_range, List.foldl_map]

/-- C2 witness: the general minimum-length law applied to the concrete
table `T`. -/
theorem select_considers_min_rows_witness :
    ∃ rows, executeSelect smT "T" ["id", "name"] none =
        (.ok rows, [("T", "id"), ("T", "name")]) ∧
      rows.length = ([3, 3] : List Nat).foldl min usizeMAX := by
  have h := select_considers_min_rows.2.2 smT "T" ["id", "name"]
    (Table.mk "T" [Column.mk "id" .Int32, Column.mk "name" .String] 3)
    (fun c => if c == "id" then [.Int32 1, .Int32 2, .Int32 3]
      else [.String "a", .String "b", .String "c"])
    rfl (by decide)
    (by
      intro c hc
      cases hc with
      | head => rfl
      | tail _ hc2 =>
        cases hc2 with
        | head => rfl
        | tail _ hc3 => cases hc3)
  exact h

theorem joinRowCells_ok (colMap : List (String × List Value)) (rt : String)
    (i j : Nat) :
    ∀ columns : List String,
    (∀ col ∈ columns, (if charsStart col.data rt.data then j else i) <
      ((lookupCol colMap col).getD []).length) →
    joinRowCells colMap rt i j columns = .ok (columns.map (fun col =>
      ((lookupCol colMap col).getD []).getD
        (if charsStart col.data rt.data then j else i) padValue)) := by
  intro columns
  induction columns with
  | nil => intro _; rfl
  | cons col cols ih =>
    intro h
    have hcol := h col (List.mem_cons_self col cols)
    have hcols := ih (fun y hy => h y (List.mem_cons_of_mem col hy))
    simp [joinRowCells, hcol, hcols]

/-- C3: the concrete join `L(id=[1,2]) ⋈ R(lid=[2,2,3])` on `id = lid`
yields exactly two combined rows; and in general the nested-loop join
emits one combined row for every pair `(i, j)` of in-range row indices
whose join-column values are equal, and nothing else (the bounds
hypotheses keep every index inside its column vector, as a consistent
store guarantees). -/
theorem join_emits_matching_pairs :
    (executeJoin smLR "L" "R" "id" "lid" ["id", "R.lid"] none =
      (.ok [[.Int32 2, .Int32 2], [.Int32 2, .Int32 2]],
       [("L", "id"), ("R", "lid"), ("L", "id"), ("R", "lid")])) ∧
    (∀ (lv rv : List Value) (columns : List String)
        (colMap : List (String × List Value)) (rt : String) (minL minR : Nat),
      minL ≤ lv.length → minR ≤ rv.length →
      (∀ col ∈ columns, (if charsStart col.data rt.data then minR else minL) ≤
        ((lookupCol colMap col).getD []).length) →
      joinRows lv rv columns colMap rt minL minR = .ok
        ((List.range minL).flatMap (fun i =>
          ((List.range minR).filter
            (fun j => lv.getD i padValue == rv.getD j padValue)).map
            (fun j => columns.map (fun col =>
              ((lookupCol colMap col).getD []).getD
                (if charsStart col.data rt.data then j else i) padValue))))) := by
  refine ⟨rfl, ?_⟩
  intro lv rv columns colMap rt minL minR hl hr hcols
  unfold joinRows
  apply exceptFlatMap_ok
  intro i hi
  have hi2 : i < minL := List.mem_range.mp hi
  refine exceptFilterMap_ok _ _ _ _ ?_
  intro j hj
  have hj2 : j < minR := List.mem_range.mp hj
  by_cases heq : lv.getD i padValue = rv.getD j padValue
  · have heq2 : (lv.getD i padValue == rv.getD j padValue) = true := by
      simp only [beq_iff_eq]
      exact heq
    rw [if_pos heq]
    rw [joinRowCells_ok colMap rt i j columns (fun col hc => by
      have hb := hcols col hc
      by_cases hcs : charsStart col.data rt.data = true
      · rw [if_pos hcs] at hb ⊢
        omega
      · rw [if_neg hcs] at hb ⊢
        omega)]
    rw [if_pos heq2]
    rfl
  · have heq2 : ¬((lv.getD i padValue == rv.getD j padValue) = true) := by
      simp only [beq_iff_eq]
      exact heq
    rw [if_neg heq, if_neg heq2]

/-- C3 witness: the pair-characterization applied to the claim's concrete
join, evaluating to the two expected combined rows. -/
theorem join_emits_matching_pairs_witness :
    joinRows [.Int32 1, .Int32 2] [.Int32 2, .Int32 2, .Int32 3] ["id", "R.lid"]
      [("id", [.Int32 1, .Int32 2]), ("R.lid", [.Int32 2, .Int32 2, .Int32 3])]
      "R" 2 3 = .ok [[.Int32 2, .Int32 2], [.Int32 2, .Int32 2]] := by
  rw [join_emits_matching_pairs.2 _ _ _ _ _ _ _ (by decide) (by decide) (by decide)]
  rfl

/-- C5 counterexample: a Join whose output columns name a column absent
from the right table fails with `InvalidData` naming it, but only after
three storage reads (both join columns and the first output column) have
already been performed — refuting "before any storage read". -/
theorem join_reads_before_missing_column_failure :
    executeJoin smLR "L" "R" "id" "lid" ["id", "R.missing"] none =
      (.error (.InvalidData "Column R.missing not found"),
       [("L", "id"), ("R", "lid"), ("L", "id"), ("R", "missing")]) ∧
    ([("L", "id"), ("R", "lid"), ("L", "id"), ("R", "missing")] : ReadLog) ≠ [] :=
  ⟨rfl, by simp⟩

/-- C5 (amended): a Select referencing a missing column fails with
`InvalidData` naming the first missing projection column (or the missing
condition column) before any storage read — its read log is empty — while
Join and SelectAggregate also fail with `InvalidData` naming the missing
column, but reads of previously referenced columns may already have been
performed. -/
theorem missing_column_guard :
    (∀ (sm : StorageManager) (table : String) (cond : Option Condition)
        (pre post : List String) (c : String) (tdef : Table),
      getTable sm table = some tdef →
      (∀ c2 ∈ pre, tdef.columns.any (fun cd => cd.name == c2) = true) →
      tdef.columns.any (fun cd => cd.name == c) = false →
      executeSelect sm table (pre ++ c :: post) cond =
        (.error (.InvalidData ("Column " ++ table ++ "." ++ c ++ " not found")), [])) ∧
    (executeSelect smT "T" ["name"] (some (.cmp "bogus" .gt (.Int32 1))) =
      (.error (.InvalidData "Column T.bogus not found in condition"), [])) ∧
    (executeAggregate smX "t" [.Sum "x", .Sum "nope"] none =
      (.error (.InvalidData "Column t.nope not found"), [("t", "x")])) := by
  refine ⟨?_, rfl, rfl⟩
  intro sm table cond pre post c tdef hget hpre hc
  have hfind : (pre ++ c :: post).find?
      (fun c2 => !(tdef.columns.any (fun cd => cd.name == c2))) = some c := by
    rw [List.find?_append]
    have h1 : pre.find?
        (fun c2 => !(tdef.columns.any (fun cd => cd.name == c2))) = none := by
      rw [List.find?_eq_none]
      intro x hx
      simp [hpre x hx]
    rw [h1, List.find?_cons_of_pos _ (by simp [hc])]
    rfl
  simp only [executeSelect, hget, hfind]

/-- C5 witness: the Select guard applied to table `T` with the unknown
column `zzz` after the known column `id`. -/
theorem missing_column_guard_witness :
    executeSelect smT "T" (["id"] ++ "zzz" :: []) none =
      (.error (.InvalidData ("Column " ++ "T" ++ "." ++ "zzz" ++ " not found")), []) :=
  missing_column_guard.1 smT "T" none ["id"] [] "zzz"
    (Table.mk "T" [Column.mk "id" .Int32, Column.mk "name" .String] 3)
    rfl (by decide) (by decide)

/-- C4: over the Int32 column values `[1,2,3,4]`, `Sum` is `Float32(10.0)`,
`Avg` is `Float32(2.5)`, `Min` is `Int32(1)`, `Max` is `Int32(4)` and
`Count` is `4`, and all requested scalars come back together in one single
output row; in general every successful SelectAggregate returns exactly
one row. -/
theorem aggregate_scalar_values :
    (executeAggregate smAgg "t" [.Sum "ID", .Avg "ID", .Min "ID", .Max "ID", .Count] none =
      (.ok [[.Float32 (Frac.ofInt 10), .Float32 ⟨5, 2⟩, .Int32 1, .Int32 4, .Int32 4]],
       [("t", "ID"), ("t", "ID"), ("t", "ID"), ("t", "ID"), ("t", "ID")])) ∧
    (∀ (sm : StorageManager) (table : String) (aggs : List Aggregation)
        (cond : Option Condition) (rows : List (List Value)) (log : ReadLog),
      executeAggregate sm table aggs cond = (.ok rows, log) → rows.length = 1) := by
  refine ⟨rfl, ?_⟩
  intro sm table aggs cond rows log h
  simp only [executeAggregate] at h
  split at h
  · exact absurd h (by simp)
  · have h1 := congrArg Prod.fst h
    simp only at h1
    rcases hres : (aggLoop sm table _ cond aggs).1 with e | results
    · rw [hres] at h1
      simp [Except.map] at h1
    · rw [hres] at h1
      simp only [Except.map, Except.ok.injEq] at h1
      rw [← h1]
      rfl

/-- C4 witness: the single-row law applied to the concrete aggregate
query over `[1,2,3,4]`. -/
theorem aggregate_scalar_values_witness :
    ([[Value.Float32 (Frac.ofInt 10), Value.Float32 ⟨5, 2⟩, Value.Int32 1,
       Value.Int32 4, Value.Int32 4]] : List (List Value)).length = 1 :=
  aggregate_scalar_values.2 smAgg "t" [.Sum "ID", .Avg "ID", .Min "ID", .Max "ID", .Count]
    none _ _ rfl

/-- C7: a SelectAggregate containing `Sum` or `Avg` over a column whose
declared type is not numeric fails with an `InvalidData` error and
produces no output row (whatever other aggregations or conditions the
query carries). -/
theorem sum_avg_numeric_guard (sm : StorageManager) (table : String)
    (aggs : List Aggregation) (cond : Option Condition) (c : String)
    (hmem : Aggregation.Sum c ∈ aggs ∨ Aggregation.Avg c ∈ aggs)
    (htype : ∀ tdef cdef, getTable sm table = some tdef →
      tdef.get_column c = some cdef →
      cdef.data_type ≠ DataType.Float32 ∧ cdef.data_type ≠ DataType.Int32) :
    ∃ msg, (executeAggregate sm table aggs cond).1 = .error (.InvalidData msg) := by
  rcases hget : getTable sm table with _ | tdef
  · exact ⟨"Table " ++ table ++ " not found", by simp [executeAggregate, hget]⟩
  · have hstep : ∀ (a : Aggregation), (a = .Sum c ∨ a = .Avg c) →
        ∀ v, (aggStep sm table tdef cond a).1 ≠ .ok v := by
      intro a ha v
      have hcol : aggColumn a = c := by
        rcases ha with rfl | rfl <;> rfl
      simp only [aggStep, hcol]
      rcases hgc : tdef.get_column c with _ | cdef
      · simp
      · obtain ⟨ht1, ht2⟩ := htype tdef cdef hget hgc
        rcases hrc : readColumn sm table c cond with e | values
        · simp
        · rcases ha with rfl | rfl
          · simp [computeAgg, ht1, ht2]
          · simp [computeAgg, ht1, ht2]
    rcases hmem with hm | hm
    · obtain ⟨msg, hmsg⟩ :=
        aggLoop_error_invalid sm table tdef cond aggs _ hm (hstep _ (Or.inl rfl))
      exact ⟨msg, by simp [executeAggregate, hget, hmsg, Except.map]⟩
    · obtain ⟨msg, hmsg⟩ :=
        aggLoop_error_invalid sm table tdef cond aggs _ hm (hstep _ (Or.inr rfl))
      exact ⟨msg, by simp [executeAggregate, hget, hmsg, Except.map]⟩

/-- C7 witness: `Sum` over the `String` column `s` fails with
`InvalidData`. -/
theorem sum_avg_numeric_guard_witness :
    ∃ msg, (executeAggregate smS "t" [.Sum "s"] none).1 = .error (.InvalidData msg) :=
  sum_avg_numeric_guard smS "t" [.Sum "s"] none "s" (Or.inl (List.mem_singleton.mpr rfl))
    (by
      intro tdef cdef h1 h2
      rw [show getTable smS "t" = some (Table.mk "t" [Column.mk "s" DataType.String] 1)
        from rfl] at h1
      injection h1 with h1
      subst h1
      rw [show (Table.mk "t" [Column.mk "s" DataType.String] 1).get_column "s" =
        some (Column.mk "s" DataType.String) from rfl] at h2
      injection h2 with h2
      subst h2
      exact ⟨by decide, by decide⟩)

/-- C8 counterexample: over the column `x = [0]` (one filtered row), `Avg`
returns `Float32(0.0)` even though the filtered row count is `1`, refuting
"zero only when that row count is zero". -/
theorem avg_zero_with_nonzero_count :
    executeAggregate smX "t" [.Avg "x"] none =
      (.ok [[.Float32 (Frac.ofInt 0)]], [("t", "x")]) ∧
    readColumn smX "t" "x" none = .ok [.Int32 0] ∧
    ([Value.Int32 0].length ≠ 0) :=
  ⟨rfl, rfl, by decide⟩

/-- C8 (amended): on a numeric column, `Avg` returns the float sum of the
filtered values divided by the filtered row count when that count is
positive, and `Float32(0.0)` when it is zero (a zero average can also
arise from a zero sum with a positive count); `Min` and `Max`, computed
under the `Value` total order, return `Float32(0.0)` when the filtered
column is empty. -/
theorem avg_min_max_defaults :
    (∀ (sm : StorageManager) (table c : String) (cond : Option Condition)
        (tdef : Table) (cdef : Column) (values : List Value),
      getTable sm table = some tdef →
      tdef.get_column c = some cdef →
      (cdef.data_type = DataType.Int32 ∨ cdef.data_type = DataType.Float32) →
      readColumn sm table c cond = .ok values →
      ∃ s, sumFold values = .Float32 s ∧
        executeAggregate sm table [.Avg c] cond =
          (.ok [[.Float32 (if 0 < values.length
            then s.div (Frac.ofInt (values.length : Int))
            else Frac.ofInt 0)]], [(table, c)])) ∧
    (∀ (sm : StorageManager) (table c : String) (cond : Option Condition)
        (tdef : Table) (cdef : Column),
      getTable sm table = some tdef →
      tdef.get_column c = some cdef →
      readColumn sm table c cond = .ok [] →
      executeAggregate sm table [.Min c] cond =
        (.ok [[.Float32 (Frac.ofInt 0)]], [(table, c)]) ∧
      executeAggregate sm table [.Max c] cond =
        (.ok [[.Float32 (Frac.ofInt 0)]], [(table, c)])) := by
  constructor
  · intro sm table c cond tdef cdef values hget hgc htype hread
    obtain ⟨s, hs⟩ := sumFold_float values
    refine ⟨s, hs, ?_⟩
    have hnum : ¬(cdef.data_type ≠ DataType.Float32 ∧ cdef.data_type ≠ DataType.Int32) := by
      rcases htype with h | h <;> simp [h]
    simp only [executeAggregate, hget, aggLoop, aggStep, aggColumn, hgc, hread,
      computeAgg, hs, Except.map]
    rw [if_neg hnum]
    by_cases hlen : 0 < values.length
    · rw [if_pos hlen, if_pos hlen]
      rfl
    · rw [if_neg hlen, if_neg hlen]
      rfl
  · intro sm table c cond tdef cdef hget hgc hread
    constructor <;>
      simp [executeAggregate, hget, aggLoop, aggStep, aggColumn, hgc, hread,
        computeAgg, listMinBy, listMaxBy, Except.map]

/-- C8 witness: the `Avg` formula applied to the concrete column
`[1,2,3,4]`. -/
theorem avg_min_max_defaults_witness :
    ∃ s, sumFold [Value.Int32 1, .Int32 2, .Int32 3, .Int32 4] = .Float32 s ∧
      executeAggregate smAgg "t" [.Avg "ID"] none =
        (.ok [[.Float32 (if 0 < ([Value.Int32 1, .Int32 2, .Int32 3, .Int32 4]).length
          then s.div (Frac.ofInt (([Value.Int32 1, .Int32 2, .Int32 3,
            .Int32 4]).length : Int))
          else Frac.ofInt 0)]], [("t", "ID")]) :=
  avg_min_max_defaults.1 smAgg "t" "ID" none
    (Table.mk "t" [Column.mk "ID" .Int32] 4) (Column.mk "ID" .Int32)
    [Value.Int32 1, .Int32 2, .Int32 3, .Int32 4] rfl rfl (Or.inl rfl) rfl

/-- C10: a SelectAggregate containing `Count` reads the column literally
named `ID`: on a table with no `ID` column it fails with an `InvalidData`
(column not found) error — even when the table exists and has data — and
when `ID` exists, `Count` returns `Int32` of the filtered `ID` column's
length. -/
theorem count_reads_literal_ID :
    (∀ (sm : StorageManager) (table : String) (aggs : List Aggregation)
        (cond : Option Condition) (tdef : Table),
      getTable sm table = some tdef →
      tdef.get_column "ID" = none →
      Aggregation.Count ∈ aggs →
      ∃ msg, (executeAggregate sm table aggs cond).1 = .error (.InvalidData msg)) ∧
    (∀ (sm : StorageManager) (table : String) (cond : Option Condition) (tdef : Table),
      getTable sm table = some tdef →
      tdef.get_column "ID" = none →
      executeAggregate sm table [.Count] cond =
        (.error (.InvalidData ("Column " ++ table ++ "." ++ "ID" ++ " not found")), [])) ∧
    (∀ (sm : StorageManager) (table : String) (cond : Option Condition)
        (tdef : Table) (cdef : Column) (vs : List Value),
      getTable sm table = some tdef →
      tdef.get_column "ID" = some cdef →
      readColumn sm table "ID" cond = .ok vs →
      vs.length < 2147483648 →
      executeAggregate sm table [.Count] cond =
        (.ok [[.Int32 (vs.length : Int)]], [(table, "ID")])) := by
  refine ⟨?_, ?_, ?_⟩
  · intro sm table aggs cond tdef hget hid hmem
    have hstep : ∀ v, (aggStep sm table tdef cond .Count).1 ≠ .ok v := by
      intro v
      simp [aggStep, aggColumn, hid]
    obtain ⟨msg, hmsg⟩ := aggLoop_error_invalid sm table tdef cond aggs _ hmem hstep
    exact ⟨msg, by simp [executeAggregate, hget, hmsg, Except.map]⟩
  · intro sm table cond tdef hget hid
    simp [executeAggregate, hget, aggLoop, aggStep, aggColumn, hid, Except.map]
  · intro sm table cond tdef cdef vs hget hgc hread hlen
    simp [executeAggregate, hget, aggLoop, aggStep, aggColumn, hgc, hread, computeAgg,
      int32OfNat_small vs.length hlen, Except.map]

/-- C10 witness: `Count` on the table `t(x)` (no `ID` column) fails naming
`t.ID`, and on `t(ID=[1,2,3,4])` returns `Int32 4`. -/
theorem count_reads_literal_ID_witness :
    executeAggregate smX "t" [.Count] none =
      (.error (.InvalidData ("Column " ++ "t" ++ "." ++ "ID" ++ " not found")), []) ∧
    executeAggregate smAgg "t" [.Count] none =
      (.ok [[.Int32 (([Value.Int32 1, .Int32 2, .Int32 3, .Int32 4]).length : Int)]],
       [("t", "ID")]) :=
  ⟨count_reads_literal_ID.2.1 smX "t" none (Table.mk "t" [Column.mk "x" .Int32] 1) rfl rfl,
   count_reads_literal_ID.2.2 smAgg "t" none (Table.mk "t" [Column.mk "ID" .Int32] 4)
     (Column.mk "ID" .Int32) [Value.Int32 1, .Int32 2, .Int32 3, .Int32 4]
     rfl rfl rfl (by decide)⟩

end Engine

end VDDB
